import Mathlib

/-!
A shallow embedding of `cty/element_iterator.go` from go-cty: the element
iterator factory and the four concrete iterators (list, map, set, tuple).

Modelling conventions:
* A Go panic (the `default` branch of the factory switch, a failed type
  assertion such as `val.v.([]interface{})`, or an out-of-range index) is
  modelled as `none` of an `Option` result.
* Go `int` (the cursor field `idx`) is modelled in two ways.  `Next` widens
  it to unbounded `Int`; this agrees with the program exactly for every run
  whose call count is bounded by a representable collection length, which is
  all the bounded-length properties need.  `NextW` models the increment
  `it.idx++` exactly, with Go's defined two's-complement wraparound at
  `2^63 - 1`; the wrap is observable after `2^63`-order call counts and it
  is what decides the "any number of further calls" properties.
* The native payload `interface{}` is modelled by the inductive `Raw`; a Go
  `map[string]interface{}` is a `List (String × Raw)` in unspecified storage
  order (Go map range order is unspecified, which is exactly why the code
  sorts the keys).
* Go string comparison (`sort.Strings`, byte-lexicographic on UTF-8) is
  modelled by a codepoint-lexicographic comparator, which agrees with
  byte order on UTF-8 encodings.  `sort.Strings` is not stable, but a sorted
  permutation of a multiset is unique, so insertion sort is a faithful model
  of its result.
-/

namespace CtyIter

/-- The cty type descriptor, restricted to the structure this file consults:
the kind tag, the element type of list/map/set, and the per-position element
types of a tuple.  Object and primitive kinds are the non-collection cases. -/
inductive Ty : Type where
  | number : Ty
  | string : Ty
  | bool : Ty
  | list (ety : Ty) : Ty
  | map (ety : Ty) : Ty
  | set (ety : Ty) : Ty
  | tuple (etys : List Ty) : Ty
  | object (atys : List (String × Ty)) : Ty


/-- The native payload held in `Value.v` (Go `interface{}`): a number, a
string, an ordered sequence (`[]interface{}`), a string-keyed mapping
(`map[string]interface{}`), or the external set representation.
`nil` models the Go nil interface value (e.g. a map lookup miss). -/
inductive Raw : Type where
  | nil : Raw
  | int (n : Int) : Raw
  | str (s : String) : Raw
  | seq (elems : List Raw) : Raw
  | map (entries : List (String × Raw)) : Raw
  | set (elems : List Raw) : Raw


/-- A cty `Value`: a type descriptor paired with a native payload. -/
structure Value : Type where
  ty : Ty
  v : Raw


/-- `cty.NumberIntVal`: an integral number value. -/
def NumberIntVal (n : Int) : Value := ⟨Ty.number, Raw.int n⟩

/-- `cty.StringVal`: a string value. -/
def StringVal (s : String) : Value := ⟨Ty.string, Raw.str s⟩

def Ty.IsListType : Ty → Bool
  | .list _ => true
  | _ => false

def Ty.IsMapType : Ty → Bool
  | .map _ => true
  | _ => false

def Ty.IsSetType : Ty → Bool
  | .set _ => true
  | _ => false

def Ty.IsTupleType : Ty → Bool
  | .tuple _ => true
  | _ => false

/-- Whether the type is one of the four kinds the iterator factory accepts. -/
def Ty.isCollectionKind (t : Ty) : Bool :=
  t.IsListType || t.IsMapType || t.IsSetType || t.IsTupleType

/-- The four concrete iterator kinds produced by the factory. -/
inductive IterKind : Type where
  | list | map | set | tuple
deriving DecidableEq


/-- The iterator kind a type calls for, if any. -/
def Ty.collectionKind? : Ty → Option IterKind
  | .list _ => some .list
  | .map _ => some .map
  | .set _ => some .set
  | .tuple _ => some .tuple
  | _ => none

/-- Whether a native payload has the shape the Go type assertions in the
factory require for the given type kind: an ordered sequence for list/tuple,
a string-keyed mapping for map, the set representation for set. -/
def rawShapeMatches : Ty → Raw → Bool
  | .list _, .seq _ => true
  | .map _, .map _ => true
  | .set _, .set _ => true
  | .tuple _, .seq _ => true
  | _, _ => false

/-- Codepoint-lexicographic strict order on character lists, the model of
Go's byte-lexicographic `<` on strings (they agree on UTF-8). -/
def strLtb : List Char → List Char → Bool
  | _, [] => false
  | [], _ :: _ => true
  | a :: as, b :: bs =>
    if a.toNat < b.toNat then true
    else if b.toNat < a.toNat then false
    else strLtb as bs

/-- Go string `<` lifted to `String`. -/
def strLt (a b : String) : Prop := strLtb a.data b.data = true

/-- Go string `<=` (the sort order of `sort.Strings`): not strictly above. -/
def strLe (a b : String) : Prop := strLtb b.data a.data = false

instance : DecidableRel strLt := fun _ _ => instDecidableEqBool _ _

instance : DecidableRel strLe := fun _ _ => instDecidableEqBool _ _

/-- The key normalization the factory performs for maps: `sort.Strings`. -/
def sortStrings (l : List String) : List String := List.insertionSort strLe l

/-- Modelled from the spec: the external set abstraction's cursor
(`set.Iterator` of the `cty/set` package, which is not part of this core).
Per §6 it exposes `advance() -> bool` and `current() -> nativeElement`;
per §4.5/§9 it walks the set's canonical element sequence (already
deduplicated under the set's own equality) in a stable order.  We model it
as an index cursor over that canonical sequence, positioned before the
start, advancing exactly like the in-core iterators. -/
structure SetIterator : Type where
  elems : List Raw
  idx : Int


/-- Modelled from the spec: `set.Iterator.Next` advances the cursor and
reports whether a current element now exists. -/
def SetIterator.Next (it : SetIterator) : Bool × SetIterator :=
  let idx := it.idx + 1
  (decide (idx < (it.elems.length : Int)), ⟨it.elems, idx⟩)

/-- Two's-complement wraparound to a 64-bit signed integer: the value a Go
`int` holds after arithmetic overflow, which Go defines as wrapping. -/
def wrap64 (n : Int) : Int := (n + 2 ^ 63) % 2 ^ 64 - 2 ^ 63

/-- Modelled from the spec: `set.Iterator.Next` with the cursor's Go `int`
increment modelled exactly, wrapping at `2^63 - 1`. -/
def SetIterator.NextW (it : SetIterator) : Bool × SetIterator :=
  let idx := wrap64 (it.idx + 1)
  (decide (idx < (it.elems.length : Int)), ⟨it.elems, idx⟩)

/-- Modelled from the spec: `set.Iterator.Value` reads the current element;
out of range is a fault (`none`). -/
def SetIterator.Value (it : SetIterator) : Option Raw :=
  if h : 0 ≤ it.idx ∧ it.idx.toNat < it.elems.length then
    some (it.elems.get ⟨it.idx.toNat, h.2⟩)
  else none

/-- The state of any of the four concrete iterators returned by the factory:
`listElementIterator`, `mapElementIterator`, `setElementIterator`,
`tupleElementIterator`, with the fields of the corresponding Go structs. -/
inductive ElemIter : Type where
  | listElementIterator (ety : Ty) (vals : List Raw) (idx : Int) : ElemIter
  | mapElementIterator (ety : Ty) (vals : List (String × Raw)) (keys : List String)
      (idx : Int) : ElemIter
  | setElementIterator (ety : Ty) (setIt : SetIterator) : ElemIter
  | tupleElementIterator (etys : List Ty) (vals : List Raw) (idx : Int) : ElemIter


/-- The concrete kind of an iterator. -/
def ElemIter.kind : ElemIter → IterKind
  | .listElementIterator .. => .list
  | .mapElementIterator .. => .map
  | .setElementIterator .. => .set
  | .tupleElementIterator .. => .tuple

/-- Go map indexing `m[key]`: the first entry with that key, or the nil
interface value when absent (Go map indexing never faults). -/
def mapIndex (m : List (String × Raw)) (k : String) : Raw :=
  match m.lookup k with
  | some r => r
  | none => .nil

/-- The iterator factory `elementIterator`: dispatch on the value's type
kind; the `default` branch and every failed payload type assertion are Go
panics, modelled as `none`.  For a map it collects the backing mapping's
keys (in whatever storage order) and sorts them. -/
def elementIterator (val : Value) : Option ElemIter :=
  match val.ty, val.v with
  | .list ety, .seq vals =>
      some (.listElementIterator ety vals (-1))
  | .map ety, .map rawMap =>
      let keys := sortStrings (rawMap.map Prod.fst)
      some (.mapElementIterator ety rawMap keys (-1))
  | .set ety, .set elems =>
      some (.setElementIterator ety ⟨elems, -1⟩)
  | .tuple etys, .seq vals =>
      some (.tupleElementIterator etys vals (-1))
  | _, _ => none

/-- `Next` of each concrete iterator: increment the index and test it
against the length (list/map/tuple), or delegate to the set cursor.  The
Go `int` index is widened to unbounded `Int` here, which matches the
program on every call count bounded by a representable collection length;
`ElemIter.NextW` below is the overflow-exact variant. -/
def ElemIter.Next : ElemIter → Bool × ElemIter
  | .listElementIterator ety vals idx =>
      let idx := idx + 1
      (decide (idx < (vals.length : Int)), .listElementIterator ety vals idx)
  | .mapElementIterator ety vals keys idx =>
      let idx := idx + 1
      (decide (idx < (keys.length : Int)), .mapElementIterator ety vals keys idx)
  | .setElementIterator ety c =>
      let r := c.Next
      (r.1, .setElementIterator ety r.2)
  | .tupleElementIterator etys vals idx =>
      let idx := idx + 1
      (decide (idx < (vals.length : Int)), .tupleElementIterator etys vals idx)

/-- `Element` of each concrete iterator.  Out-of-range indexing of the
element sequence / key sequence / per-position type list is a Go panic,
modelled as `none`; within range it builds the key/value pair exactly as
the Go code does. -/
def ElemIter.Element : ElemIter → Option (Value × Value)
  | .listElementIterator ety vals idx =>
      if h : 0 ≤ idx ∧ idx.toNat < vals.length then
        some (NumberIntVal idx, ⟨ety, vals.get ⟨idx.toNat, h.2⟩⟩)
      else none
  | .mapElementIterator ety vals keys idx =>
      if h : 0 ≤ idx ∧ idx.toNat < keys.length then
        let key := keys.get ⟨idx.toNat, h.2⟩
        some (StringVal key, ⟨ety, mapIndex vals key⟩)
      else none
  | .setElementIterator ety c =>
      match c.Value with
      | some r => some (⟨ety, r⟩, ⟨ety, r⟩)
      | none => none
  | .tupleElementIterator etys vals idx =>
      if h : 0 ≤ idx ∧ idx.toNat < etys.length ∧ idx.toNat < vals.length then
        some (NumberIntVal idx,
          ⟨etys.get ⟨idx.toNat, h.2.1⟩, vals.get ⟨idx.toNat, h.2.2⟩⟩)
      else none

/-- Drive an iterator with the caller's pull loop
`for it.Next() { it.Element() }`, bounded by `fuel` calls to `Next`:
collect the pairs yielded after each successful `Next` and return them with
the final iterator state.  A faulting `Element` (impossible after a
successful `Next`) stops the loop. -/
def ElemIter.run : Nat → ElemIter → List (Value × Value) × ElemIter
  | 0, it => ([], it)
  | fuel + 1, it =>
      let s := it.Next
      if s.1 then
        match s.2.Element with
        | some p =>
            let r := ElemIter.run fuel s.2
            (p :: r.1, r.2)
        | none => ([], s.2)
      else ([], s.2)

/-- The iterator state after `n` calls to `Next` (results discarded). -/
def ElemIter.stepN : Nat → ElemIter → ElemIter
  | 0, it => it
  | n + 1, it => ElemIter.stepN n (it.Next).2

/-- `Next` with the Go `int` field `idx` modelled exactly: the increment
`it.idx++` wraps at `2^63 - 1` by Go's defined two's-complement overflow.
Identical to `Next` except that the incremented index passes through
`wrap64`. -/
def ElemIter.NextW : ElemIter → Bool × ElemIter
  | .listElementIterator ety vals idx =>
      let idx := wrap64 (idx + 1)
      (decide (idx < (vals.length : Int)), .listElementIterator ety vals idx)
  | .mapElementIterator ety vals keys idx =>
      let idx := wrap64 (idx + 1)
      (decide (idx < (keys.length : Int)), .mapElementIterator ety vals keys idx)
  | .setElementIterator ety c =>
      let r := c.NextW
      (r.1, .setElementIterator ety r.2)
  | .tupleElementIterator etys vals idx =>
      let idx := wrap64 (idx + 1)
      (decide (idx < (vals.length : Int)), .tupleElementIterator etys vals idx)

/-- The iterator state after `n` calls to the overflow-exact `NextW`. -/
def ElemIter.stepNW : Nat → ElemIter → ElemIter
  | 0, it => it
  | n + 1, it => ElemIter.stepNW n (it.NextW).2

/-- The length `Next` compares the cursor index against: the element count
of the sequence, key list, or canonical set sequence. -/
def ElemIter.stepLen : ElemIter → Nat
  | .listElementIterator _ vals _ => vals.length
  | .mapElementIterator _ _ keys _ => keys.length
  | .setElementIterator _ c => c.elems.length
  | .tupleElementIterator _ vals _ => vals.length

/-- The current cursor index of an iterator. -/
def ElemIter.stepIdx : ElemIter → Int
  | .listElementIterator _ _ idx => idx
  | .mapElementIterator _ _ _ idx => idx
  | .setElementIterator _ c => c.idx
  | .tupleElementIterator _ _ idx => idx

/-- The same iterator with its cursor index replaced. -/
def ElemIter.withIdx : ElemIter → Int → ElemIter
  | .listElementIterator ety vals _, i => .listElementIterator ety vals i
  | .mapElementIterator ety vals keys _, i => .mapElementIterator ety vals keys i
  | .setElementIterator ety c, i => .setElementIterator ety ⟨c.elems, i⟩
  | .tupleElementIterator etys vals _, i => .tupleElementIterator etys vals i

/-- The pair yielded for position `j` of a list iterator. -/
def listElemAt (ety : Ty) (vals : List Raw) (j : Nat) : Value × Value :=
  (NumberIntVal j, ⟨ety, vals.getD j .nil⟩)

/-- The pair yielded for position `j` of a map iterator's sorted key list. -/
def mapElemAt (ety : Ty) (vals : List (String × Raw)) (keys : List String)
    (j : Nat) : Value × Value :=
  (StringVal (keys.getD j ""), ⟨ety, mapIndex vals (keys.getD j "")⟩)

/-- The pair yielded for position `j` of a set iterator's canonical
element sequence: the element as both key and value. -/
def setElemAt (ety : Ty) (elems : List Raw) (j : Nat) : Value × Value :=
  (⟨ety, elems.getD j .nil⟩, ⟨ety, elems.getD j .nil⟩)

/-- The pair yielded for position `j` of a tuple iterator. -/
def tupleElemAt (etys : List Ty) (vals : List Raw) (j : Nat) : Value × Value :=
  (NumberIntVal j, ⟨etys.getD j .number, vals.getD j .nil⟩)

/-- The key components of the pairs an iterator run yields. -/
def runKeys (fuel : Nat) (it : ElemIter) : List Value :=
  ((ElemIter.run fuel it).1).map Prod.fst

/-- The full key sequence of a map value's iterator, driven to exhaustion
from a fresh iterator (empty when construction faults). -/
def mapRunKeys (ety : Ty) (m : List (String × Raw)) : List Value :=
  match elementIterator ⟨Ty.map ety, Raw.map m⟩ with
  | some it => runKeys (m.length + 1) it
  | none => []

/-- Advance the first of a pair of independently held iterators. -/
def advanceFst (p : ElemIter × ElemIter) : ElemIter × ElemIter :=
  ((p.1.Next).2, p.2)

/-- Advance the second of a pair of independently held iterators. -/
def advanceSnd (p : ElemIter × ElemIter) : ElemIter × ElemIter :=
  (p.1, (p.2.Next).2)

lemma char_eq_of_toNat {a b : Char} (h : a.toNat = b.toNat) : a = b := by
  apply Char.eq_of_val_eq
  apply UInt32.ext
  exact h

lemma string_eq_of_data {a b : String} (h : a.data = b.data) : a = b := by
  cases a; cases b; exact congrArg String.mk h

lemma strLtb_cons (a b : Char) (as bs : List Char) :
    strLtb (a :: as) (b :: bs) = true ↔
      a.toNat < b.toNat ∨ (a.toNat = b.toNat ∧ strLtb as bs = true) := by
  by_cases h1 : a.toNat < b.toNat
  · simp [strLtb, h1]
  · by_cases h2 : b.toNat < a.toNat
    · simp [strLtb, h1, h2, show a.toNat ≠ b.toNat from by omega]
    · have he : a.toNat = b.toNat := by omega
      simp [strLtb, h1, h2, he]

lemma strLtb_asymm : ∀ as bs : List Char, strLtb as bs = true → strLtb bs as = false
  | [], [] => by simp [strLtb]
  | [], _ :: _ => by simp [strLtb]
  | _ :: _, [] => by simp [strLtb]
  | a :: as, b :: bs => by
      intro h
      rw [strLtb_cons] at h
      rw [Bool.eq_false_iff]
      intro hc
      rw [strLtb_cons] at hc
      rcases h with h | ⟨he, h⟩
      · rcases hc with hc | ⟨hce, _⟩ <;> omega
      · rcases hc with hc | ⟨_, hc⟩
        · omega
        · exact absurd hc (by rw [strLtb_asymm as bs h]; simp)

lemma strLtb_trans : ∀ as bs cs : List Char, strLtb as bs = true → strLtb bs cs = true →
    strLtb as cs = true
  | as, [], _ => by intro h _; cases as <;> simp [strLtb] at h
  | _, _ :: _, [] => by intro _ h; simp [strLtb] at h
  | [], _ :: _, _ :: _ => by intro _ _; simp [strLtb]
  | a :: as, b :: bs, c :: cs => by
      intro h1 h2
      rw [strLtb_cons] at h1 h2 ⊢
      rcases h1 with h1 | ⟨he1, h1⟩
      · exact Or.inl (by rcases h2 with h2 | ⟨he2, _⟩ <;> omega)
      · rcases h2 with h2 | ⟨he2, h2⟩
        · exact Or.inl (by omega)
        · exact Or.inr ⟨by omega, strLtb_trans as bs cs h1 h2⟩

lemma strLtb_connex : ∀ as bs : List Char, strLtb as bs = false → strLtb bs as = false →
    as = bs
  | [], [] => by intro _ _; rfl
  | [], _ :: _ => by intro h _; simp [strLtb] at h
  | _ :: _, [] => by intro _ h; simp [strLtb] at h
  | a :: as, b :: bs => by
      intro h1 h2
      rw [Bool.eq_false_iff, Ne, strLtb_cons] at h1 h2
      push_neg at h1 h2
      have he : a.toNat = b.toNat := by
        rcases h1 with ⟨h1a, _⟩
        rcases h2 with ⟨h2a, _⟩
        omega
      have htail : as = bs :=
        strLtb_connex as bs
          (Bool.eq_false_iff.mpr (h1.2 he))
          (Bool.eq_false_iff.mpr (h2.2 he.symm))
      rw [char_eq_of_toNat he, htail]

instance : IsTotal String strLe := by
  constructor
  intro a b
  by_cases h : strLtb b.data a.data = true
  · exact Or.inr (strLtb_asymm _ _ h)
  · exact Or.inl (Bool.eq_false_iff.mpr h)

instance : IsTrans String strLe := by
  constructor
  intro a b c hab hbc
  unfold strLe at hab hbc ⊢
  by_cases hbc' : strLtb b.data c.data = true
  · rw [Bool.eq_false_iff]
    intro hca
    exact absurd (strLtb_trans _ _ _ hbc' hca) (Bool.eq_false_iff.mp hab)
  · have : b.data = c.data := strLtb_connex _ _ (Bool.eq_false_iff.mpr hbc') hbc
    rw [← this]; exact hab

instance : IsAntisymm String strLe := by
  constructor
  intro a b hab hba
  exact string_eq_of_data (strLtb_connex _ _ hba hab)

lemma next_eq (it : ElemIter) :
    it.Next = (decide (it.stepIdx + 1 < (it.stepLen : Int)),
      it.withIdx (it.stepIdx + 1)) := by
  cases it <;> rfl

lemma stepLen_withIdx (it : ElemIter) (i : Int) :
    (it.withIdx i).stepLen = it.stepLen := by
  cases it <;> rfl

lemma stepIdx_withIdx (it : ElemIter) (i : Int) :
    (it.withIdx i).stepIdx = i := by
  cases it <;> rfl

lemma withIdx_withIdx (it : ElemIter) (i j : Int) :
    (it.withIdx i).withIdx j = it.withIdx j := by
  cases it <;> rfl

lemma withIdx_stepIdx_self (it : ElemIter) : it.withIdx it.stepIdx = it := by
  cases it <;> rfl

lemma kind_withIdx (it : ElemIter) (i : Int) : (it.withIdx i).kind = it.kind := by
  cases it <;> rfl

lemma next_withIdx (it : ElemIter) (i : Int) :
    (it.withIdx i).Next = (decide (i + 1 < (it.stepLen : Int)), it.withIdx (i + 1)) := by
  rw [next_eq, stepIdx_withIdx, stepLen_withIdx, withIdx_withIdx]

lemma stepN_withIdx (n : Nat) (it : ElemIter) (i : Int) :
    ElemIter.stepN n (it.withIdx i) = it.withIdx (i + n) := by
  induction n generalizing i with
  | zero => simp [ElemIter.stepN]
  | succ n ih =>
      rw [ElemIter.stepN, next_withIdx]
      show ElemIter.stepN n (it.withIdx (i + 1)) = _
      rw [ih]
      congr 1
      push_cast
      ring

lemma wrap64_eq_self {n : Int} (h1 : -2 ^ 63 ≤ n) (h2 : n < 2 ^ 63) : wrap64 n = n := by
  unfold wrap64
  omega

lemma nextW_eq (it : ElemIter) :
    it.NextW = (decide (wrap64 (it.stepIdx + 1) < (it.stepLen : Int)),
      it.withIdx (wrap64 (it.stepIdx + 1))) := by
  cases it <;> rfl

lemma nextW_fst (it : ElemIter) :
    (it.NextW).1 = decide (wrap64 (it.stepIdx + 1) < (it.stepLen : Int)) := by
  rw [nextW_eq]

lemma nextW_snd (it : ElemIter) :
    (it.NextW).2 = it.withIdx (wrap64 (it.stepIdx + 1)) := by
  rw [nextW_eq]

lemma nextW_withIdx (it : ElemIter) (i : Int) :
    (it.withIdx i).NextW
      = (decide (wrap64 (i + 1) < (it.stepLen : Int)), it.withIdx (wrap64 (i + 1))) := by
  rw [nextW_eq, stepIdx_withIdx, stepLen_withIdx, withIdx_withIdx]

lemma nextW_fst_withIdx (it : ElemIter) (i : Int) :
    ((it.withIdx i).NextW).1 = decide (wrap64 (i + 1) < (it.stepLen : Int)) := by
  rw [nextW_withIdx]

/-- Stepping the overflow-exact `NextW` adds one per call as long as the
index stays inside the int64 range, so no wrap occurs. -/
lemma stepNW_withIdx (n : Nat) (it : ElemIter) (i : Int)
    (hlo : -2 ^ 63 ≤ i) (hhi : i + n < 2 ^ 63) :
    ElemIter.stepNW n (it.withIdx i) = it.withIdx (i + n) := by
  induction n generalizing i with
  | zero => simp [ElemIter.stepNW]
  | succ n ih =>
      rw [ElemIter.stepNW, nextW_withIdx]
      show ElemIter.stepNW n (it.withIdx (wrap64 (i + 1))) = _
      have hw : wrap64 (i + 1) = i + 1 :=
        wrap64_eq_self (by omega) (by push_cast at hhi; omega)
      rw [hw, ih (i + 1) (by omega) (by push_cast at hhi ⊢; omega)]
      congr 1
      push_cast
      ring

lemma element_list_at (ety : Ty) (vals : List Raw) (j : Nat) (hj : j < vals.length) :
    (ElemIter.listElementIterator ety vals (j : Int)).Element
      = some (listElemAt ety vals j) := by
  rw [ElemIter.Element, dif_pos (by constructor <;> omega)]
  simp [listElemAt, List.getD, List.getElem?_eq_getElem, hj]

lemma element_map_at (ety : Ty) (vals : List (String × Raw)) (keys : List String)
    (j : Nat) (hj : j < keys.length) :
    (ElemIter.mapElementIterator ety vals keys (j : Int)).Element
      = some (mapElemAt ety vals keys j) := by
  rw [ElemIter.Element, dif_pos (by constructor <;> omega)]
  simp [mapElemAt, List.getD, List.getElem?_eq_getElem, hj]

lemma element_set_at (ety : Ty) (elems : List Raw) (j : Nat) (hj : j < elems.length) :
    (ElemIter.setElementIterator ety ⟨elems, (j : Int)⟩).Element
      = some (setElemAt ety elems j) := by
  rw [ElemIter.Element]
  rw [show (SetIterator.mk elems (j : Int)).Value
      = some (elems.get ⟨(j : Int).toNat, by simpa using hj⟩) from
    dif_pos ⟨Int.natCast_nonneg j, by simpa using hj⟩]
  simp [setElemAt, List.getD, List.getElem?_eq_getElem, hj]

lemma element_tuple_at (etys : List Ty) (vals : List Raw) (j : Nat)
    (hj : j < vals.length) (hty : j < etys.length) :
    (ElemIter.tupleElementIterator etys vals (j : Int)).Element
      = some (tupleElemAt etys vals j) := by
  rw [ElemIter.Element, dif_pos (by refine ⟨by omega, by omega, by omega⟩)]
  simp [tupleElemAt, List.getD, List.getElem?_eq_getElem, hj, hty]

lemma run_succ (fuel : Nat) (it : ElemIter) :
    ElemIter.run (fuel + 1) it =
      if (it.Next).1 then
        match ((it.Next).2).Element with
        | some p =>
            (p :: (ElemIter.run fuel (it.Next).2).1, (ElemIter.run fuel (it.Next).2).2)
        | none => ([], (it.Next).2)
      else ([], (it.Next).2) := rfl

/-- Characterization of the pull loop for any iterator whose positions
`i, i + 1, ...` up to `stepLen` all have a defined `Element`: starting just
before position `i` with enough fuel, the loop yields exactly the pairs at
positions `i .. stepLen - 1` in order and stops with the cursor at
`stepLen`. -/
lemma run_withIdx_spec (it : ElemIter) (f : Nat → Value × Value) (fuel i : Nat)
    (hi : i ≤ it.stepLen) (hfuel : it.stepLen - i < fuel)
    (helem : ∀ j, j < it.stepLen → (it.withIdx (j : Int)).Element = some (f j)) :
    ElemIter.run fuel (it.withIdx ((i : Int) - 1)) =
      ((List.range' i (it.stepLen - i)).map f, it.withIdx (it.stepLen : Int)) := by
  induction fuel generalizing i with
  | zero => omega
  | succ fuel ih =>
      rw [run_succ, next_withIdx]
      have hcan : (i : Int) - 1 + 1 = (i : Int) := by ring
      rw [hcan]
      by_cases hlt : i < it.stepLen
      · rw [if_pos (by simpa using (by exact_mod_cast hlt : (i : Int) < (it.stepLen : Int)))]
        rw [helem i hlt]
        have hcast : (i : Int) = ((i + 1 : Nat) : Int) - 1 := by push_cast; ring
        rw [hcast, ih (i + 1) (by omega) (by omega)]
        rw [show it.stepLen - i = (it.stepLen - (i + 1)) + 1 from by omega,
          List.range'_succ, List.map_cons]
      · rw [if_neg (by simpa using (by omega : ¬ ((i : Int) < (it.stepLen : Int))))]
        have : i = it.stepLen := by omega
        subst this
        simp

lemma next_fst (it : ElemIter) :
    (it.Next).1 = decide (it.stepIdx + 1 < (it.stepLen : Int)) := by
  rw [next_eq]

lemma next_snd (it : ElemIter) : (it.Next).2 = it.withIdx (it.stepIdx + 1) := by
  rw [next_eq]

/-- `Element` faults whenever the cursor is out of the half-open range
`[0, stepLen)`: before the first successful `Next` or at/after exhaustion. -/
lemma element_none_of_notInRange (it : ElemIter)
    (h : it.stepIdx < 0 ∨ (it.stepLen : Int) ≤ it.stepIdx) : it.Element = none := by
  cases it with
  | listElementIterator ety vals idx =>
      simp only [ElemIter.stepIdx, ElemIter.stepLen] at h
      rw [ElemIter.Element, dif_neg (by omega)]
  | mapElementIterator ety vals keys idx =>
      simp only [ElemIter.stepIdx, ElemIter.stepLen] at h
      rw [ElemIter.Element, dif_neg (by omega)]
  | setElementIterator ety c =>
      simp only [ElemIter.stepIdx, ElemIter.stepLen] at h
      rw [ElemIter.Element, show c.Value = none from by
        rw [SetIterator.Value, dif_neg (by omega)]]
  | tupleElementIterator etys vals idx =>
      simp only [ElemIter.stepIdx, ElemIter.stepLen] at h
      rw [ElemIter.Element, dif_neg (by omega)]

/-- A full run of a fresh list iterator: the pairs at positions
`0 .. vals.length - 1` in storage order, the cursor ending at the length. -/
lemma run_listIt (ety : Ty) (vals : List Raw) (fuel : Nat)
    (hfuel : vals.length < fuel) :
    ElemIter.run fuel (.listElementIterator ety vals (-1)) =
      ((List.range vals.length).map (listElemAt ety vals),
        .listElementIterator ety vals (vals.length : Int)) := by
  have h0 : (ElemIter.listElementIterator ety vals (-1))
      = (ElemIter.listElementIterator ety vals 0).withIdx (((0 : Nat) : Int) - 1) := by
    simp [ElemIter.withIdx]
  rw [h0, run_withIdx_spec (.listElementIterator ety vals 0) (listElemAt ety vals) fuel 0
    (by simp [ElemIter.stepLen]) (by simpa [ElemIter.stepLen] using hfuel)
    (fun j hj => by
      simpa [ElemIter.withIdx] using
        element_list_at ety vals j (by simpa [ElemIter.stepLen] using hj))]
  simp [ElemIter.stepLen, ElemIter.withIdx, List.range_eq_range']

/-- A full run of a fresh map iterator over a key list: the pairs at key
positions `0 .. keys.length - 1` in key-list order. -/
lemma run_mapIt (ety : Ty) (vals : List (String × Raw)) (keys : List String)
    (fuel : Nat) (hfuel : keys.length < fuel) :
    ElemIter.run fuel (.mapElementIterator ety vals keys (-1)) =
      ((List.range keys.length).map (mapElemAt ety vals keys),
        .mapElementIterator ety vals keys (keys.length : Int)) := by
  have h0 : (ElemIter.mapElementIterator ety vals keys (-1))
      = (ElemIter.mapElementIterator ety vals keys 0).withIdx (((0 : Nat) : Int) - 1) := by
    simp [ElemIter.withIdx]
  rw [h0, run_withIdx_spec (.mapElementIterator ety vals keys 0) (mapElemAt ety vals keys) fuel 0
    (by simp [ElemIter.stepLen]) (by simpa [ElemIter.stepLen] using hfuel)
    (fun j hj => by
      simpa [ElemIter.withIdx] using
        element_map_at ety vals keys j (by simpa [ElemIter.stepLen] using hj))]
  simp [ElemIter.stepLen, ElemIter.withIdx, List.range_eq_range']

/-- A full run of a fresh set iterator: each canonical element once, in the
set abstraction's order, as both key and value. -/
lemma run_setIt (ety : Ty) (elems : List Raw) (fuel : Nat)
    (hfuel : elems.length < fuel) :
    ElemIter.run fuel (.setElementIterator ety ⟨elems, -1⟩) =
      ((List.range elems.length).map (setElemAt ety elems),
        .setElementIterator ety ⟨elems, (elems.length : Int)⟩) := by
  have h0 : (ElemIter.setElementIterator ety ⟨elems, -1⟩)
      = (ElemIter.setElementIterator ety ⟨elems, 0⟩).withIdx (((0 : Nat) : Int) - 1) := by
    simp [ElemIter.withIdx]
  rw [h0, run_withIdx_spec (.setElementIterator ety ⟨elems, 0⟩) (setElemAt ety elems) fuel 0
    (by simp [ElemIter.stepLen]) (by simpa [ElemIter.stepLen] using hfuel)
    (fun j hj => by
      simpa [ElemIter.withIdx] using
        element_set_at ety elems j (by simpa [ElemIter.stepLen] using hj))]
  simp [ElemIter.stepLen, ElemIter.withIdx, List.range_eq_range']

/-- A full run of a fresh tuple iterator, provided the per-position type
list covers the sequence (the tuple representation invariant). -/
lemma run_tupleIt (etys : List Ty) (vals : List Raw) (fuel : Nat)
    (hfuel : vals.length < fuel) (hty : vals.length ≤ etys.length) :
    ElemIter.run fuel (.tupleElementIterator etys vals (-1)) =
      ((List.range vals.length).map (tupleElemAt etys vals),
        .tupleElementIterator etys vals (vals.length : Int)) := by
  have h0 : (ElemIter.tupleElementIterator etys vals (-1))
      = (ElemIter.tupleElementIterator etys vals 0).withIdx (((0 : Nat) : Int) - 1) := by
    simp [ElemIter.withIdx]
  rw [h0, run_withIdx_spec (.tupleElementIterator etys vals 0) (tupleElemAt etys vals) fuel 0
    (by simp [ElemIter.stepLen]) (by simpa [ElemIter.stepLen] using hfuel)
    (fun j hj => by
      simpa [ElemIter.withIdx] using
        element_tuple_at etys vals j (by simpa [ElemIter.stepLen] using hj)
          (by simp [ElemIter.stepLen] at hj; omega))]
  simp [ElemIter.stepLen, ElemIter.withIdx, List.range_eq_range']

lemma range_map_getD {α : Type} (l : List α) (d : α) :
    (List.range l.length).map (fun j => l.getD j d) = l := by
  apply List.ext_getElem
  · simp
  · intro i h1 h2
    simp [List.getD, List.getElem?_eq_getElem h2]

lemma range_map_comp_getD {α β : Type} (l : List α) (d : α) (f : α → β) :
    (List.range l.length).map (fun j => f (l.getD j d)) = l.map f := by
  conv_rhs => rw [← range_map_getD l d]
  rw [List.map_map]
  rfl

lemma sortStrings_perm (l : List String) : (sortStrings l).Perm l :=
  List.perm_insertionSort strLe l

lemma sortStrings_sorted (l : List String) : (sortStrings l).Sorted strLe :=
  List.sorted_insertionSort strLe l

/-- Sorting is canonical: any two key multisets that agree produce the same
sorted key sequence, whatever the storage order was. -/
lemma sortStrings_eq_of_perm {l₁ l₂ : List String} (h : l₁.Perm l₂) :
    sortStrings l₁ = sortStrings l₂ :=
  List.eq_of_perm_of_sorted (((sortStrings_perm l₁).trans h).trans (sortStrings_perm l₂).symm)
    (sortStrings_sorted l₁) (sortStrings_sorted l₂)

/-- The key sequence of a fresh map iterator driven to exhaustion is the
sorted key list of the backing mapping, wrapped as string values. -/
lemma mapRunKeys_eq (ety : Ty) (m : List (String × Raw)) :
    mapRunKeys ety m = (sortStrings (m.map Prod.fst)).map StringVal := by
  have hlen : (sortStrings (m.map Prod.fst)).length = m.length := by
    rw [sortStrings, (List.perm_insertionSort strLe (m.map Prod.fst)).length_eq,
      List.length_map]
  show runKeys (m.length + 1)
      (.mapElementIterator ety m (sortStrings (m.map Prod.fst)) (-1))
    = (sortStrings (m.map Prod.fst)).map StringVal
  rw [runKeys, run_mapIt ety m _ _ (by omega), List.map_map]
  show (List.range (sortStrings (m.map Prod.fst)).length).map
      (fun j => StringVal ((sortStrings (m.map Prod.fst)).getD j "")) = _
  exact range_map_comp_getD _ _ _

lemma advanceFst_iterate_snd (p : ElemIter × ElemIter) (n : Nat) :
    (advanceFst^[n] p).2 = p.2 := by
  induction n generalizing p with
  | zero => rfl
  | succ n ih => rw [Function.iterate_succ_apply]; exact ih _

lemma advanceSnd_iterate_fst (p : ElemIter × ElemIter) (n : Nat) :
    (advanceSnd^[n] p).1 = p.1 := by
  induction n generalizing p with
  | zero => rfl
  | succ n ih => rw [Function.iterate_succ_apply]; exact ih _

/-- Claim C1: for a list- or tuple-typed value whose native sequence has
length `N`, driving the iterator yields exactly `N` pairs, whose keys are
the integer number values `0 .. N-1` in exactly the underlying sequence's
storage order, and the `(N+1)`-th `Next` call returns false.  (The tuple
half carries the §3 representation invariant that the per-position type
list covers the sequence.) -/
theorem C1_list_tuple_index_keys (ety : Ty) (etys : List Ty)
    (lvals tvals : List Raw) (hty : tvals.length ≤ etys.length) :
    (∃ it, elementIterator ⟨Ty.list ety, Raw.seq lvals⟩ = some it ∧
      runKeys (lvals.length + 1) it
        = (List.range lvals.length).map (fun i : Nat => NumberIntVal (i : Int)) ∧
      (ElemIter.run (lvals.length + 1) it).1.length = lvals.length ∧
      ((ElemIter.stepN lvals.length it).Next).1 = false) ∧
    (∃ it, elementIterator ⟨Ty.tuple etys, Raw.seq tvals⟩ = some it ∧
      runKeys (tvals.length + 1) it
        = (List.range tvals.length).map (fun i : Nat => NumberIntVal (i : Int)) ∧
      (ElemIter.run (tvals.length + 1) it).1.length = tvals.length ∧
      ((ElemIter.stepN tvals.length it).Next).1 = false) := by
  constructor
  · refine ⟨_, rfl, ?_, ?_, ?_⟩
    · rw [runKeys, run_listIt ety lvals _ (by omega), List.map_map]
      rfl
    · rw [run_listIt ety lvals _ (by omega)]
      simp
    · have h0 : (ElemIter.listElementIterator ety lvals (-1))
          = (ElemIter.listElementIterator ety lvals 0).withIdx (-1) := rfl
      rw [h0, stepN_withIdx, next_fst, stepIdx_withIdx, stepLen_withIdx]
      simp only [ElemIter.stepLen, decide_eq_false_iff_not]
      omega
  · refine ⟨_, rfl, ?_, ?_, ?_⟩
    · rw [runKeys, run_tupleIt etys tvals _ (by omega) hty, List.map_map]
      rfl
    · rw [run_tupleIt etys tvals _ (by omega) hty]
      simp
    · have h0 : (ElemIter.tupleElementIterator etys tvals (-1))
          = (ElemIter.tupleElementIterator etys tvals 0).withIdx (-1) := rfl
      rw [h0, stepN_withIdx, next_fst, stepIdx_withIdx, stepLen_withIdx]
      simp only [ElemIter.stepLen, decide_eq_false_iff_not]
      omega

theorem C1_list_tuple_index_keys_witness :
    [Raw.int 7].length ≤ [Ty.number].length ∧
    ((∃ it, elementIterator ⟨Ty.list .number, Raw.seq [.int 5]⟩ = some it ∧
      runKeys ([Raw.int 5].length + 1) it
        = (List.range [Raw.int 5].length).map (fun i : Nat => NumberIntVal (i : Int)) ∧
      (ElemIter.run ([Raw.int 5].length + 1) it).1.length = [Raw.int 5].length ∧
      ((ElemIter.stepN [Raw.int 5].length it).Next).1 = false) ∧
    (∃ it, elementIterator ⟨Ty.tuple [.number], Raw.seq [.int 7]⟩ = some it ∧
      runKeys ([Raw.int 7].length + 1) it
        = (List.range [Raw.int 7].length).map (fun i : Nat => NumberIntVal (i : Int)) ∧
      (ElemIter.run ([Raw.int 7].length + 1) it).1.length = [Raw.int 7].length ∧
      ((ElemIter.stepN [Raw.int 7].length it).Next).1 = false)) :=
  ⟨by decide, C1_list_tuple_index_keys .number [.number] [.int 5] [.int 7] (by decide)⟩

/-- Claim C2: the key sequence a map iterator yields is exactly the backing
mapping's key set sorted in byte/codepoint lexicographic order (`strLe`),
independent of the backing mapping's storage order; in particular a map
built from `{"b": 1, "a": 2}` yields `"a"` then `"b"`. -/
theorem C2_map_lexicographic_keys (ety : Ty) (m : List (String × Raw)) :
    (∃ it, elementIterator ⟨Ty.map ety, Raw.map m⟩ = some it ∧
      runKeys (m.length + 1) it = (sortStrings (m.map Prod.fst)).map StringVal) ∧
    (sortStrings (m.map Prod.fst)).Perm (m.map Prod.fst) ∧
    (sortStrings (m.map Prod.fst)).Sorted strLe ∧
    (∀ (ety2 : Ty) (m2 : List (String × Raw)),
      (m.map Prod.fst).Perm (m2.map Prod.fst) →
      mapRunKeys ety m = mapRunKeys ety2 m2) ∧
    mapRunKeys Ty.number [("b", Raw.int 1), ("a", Raw.int 2)]
      = [StringVal "a", StringVal "b"] := by
  refine ⟨⟨_, rfl, mapRunKeys_eq ety m⟩, sortStrings_perm _, sortStrings_sorted _,
    ?_, rfl⟩
  intro ety2 m2 hperm
  rw [mapRunKeys_eq, mapRunKeys_eq, sortStrings_eq_of_perm hperm]

theorem C2_map_lexicographic_keys_witness :
    ([("b", Raw.int 1), ("a", Raw.int 2)].map Prod.fst).Perm
      ([("a", Raw.int 5), ("b", Raw.int 9)].map Prod.fst) ∧
    mapRunKeys Ty.number [("b", Raw.int 1), ("a", Raw.int 2)]
      = mapRunKeys Ty.bool [("a", Raw.int 5), ("b", Raw.int 9)] :=
  ⟨by decide,
    (C2_map_lexicographic_keys Ty.number [("b", Raw.int 1), ("a", Raw.int 2)]).2.2.2.1
      Ty.bool [("a", Raw.int 5), ("b", Raw.int 9)] (by decide)⟩

/-- Claim C3: the factory faults (returns no iterator) on every value whose
type kind is not list/map/set/tuple, and on every value of one of those four
kinds whose payload has the required shape it returns an iterator of the
matching concrete kind. -/
theorem C3_factory_dispatch (v : Value) :
    (v.ty.isCollectionKind = false → elementIterator v = none) ∧
    (v.ty.isCollectionKind = true → rawShapeMatches v.ty v.v = true →
      ∃ it, elementIterator v = some it ∧ some it.kind = v.ty.collectionKind?) := by
  obtain ⟨ty, raw⟩ := v
  cases ty <;> cases raw <;>
    simp [elementIterator, Ty.isCollectionKind, Ty.IsListType, Ty.IsMapType,
      Ty.IsSetType, Ty.IsTupleType, Ty.collectionKind?, rawShapeMatches, ElemIter.kind]

theorem C3_factory_dispatch_witness :
    elementIterator ⟨Ty.number, Raw.int 3⟩ = none ∧
    (∃ it, elementIterator ⟨Ty.list .number, Raw.seq []⟩ = some it ∧
      some it.kind = (Ty.list .number).collectionKind?) :=
  ⟨(C3_factory_dispatch ⟨Ty.number, Raw.int 3⟩).1 rfl,
   (C3_factory_dispatch ⟨Ty.list .number, Raw.seq []⟩).2 rfl rfl⟩

/-- Claim C4, counterexample to the unbounded form: with the Go `int`
increment modelled exactly (`NextW`), a list iterator whose index has
reached `2^63 - 2` (reachable by that many calls) gets one more false
`Next`, and the very next call wraps the index from `2^63 - 1` to `-2^63`
and returns true again — so "every subsequent call keeps returning false,
for any number of further calls" fails at the int64 overflow. -/
theorem C4_unbounded_calls_counterexample :
    ((ElemIter.listElementIterator .number [Raw.nil] (2 ^ 63 - 2)).NextW).1 = false ∧
    ((((ElemIter.listElementIterator .number [Raw.nil] (2 ^ 63 - 2)).NextW).2).NextW).1
      = true :=
  ⟨by decide, by decide⟩

/-- Claim C4, amended: for a list, map, or tuple iterator, once `Next` has
returned false, every subsequent `Next` call returns false for any number
of further calls that keeps the 64-bit cursor index from overflowing
(`idx + 2 + n < 2^63`); stated over the overflow-exact `NextW`. -/
theorem C4_next_false_terminal_within_int64 (it : ElemIter)
    (_hkind : it.kind ≠ IterKind.set) (hlo : -2 ^ 63 ≤ it.stepIdx)
    (hfalse : (it.NextW).1 = false) (n : Nat)
    (hn : it.stepIdx + 2 + n < 2 ^ 63) :
    ((ElemIter.stepNW n (it.NextW).2).NextW).1 = false := by
  have hw1 : wrap64 (it.stepIdx + 1) = it.stepIdx + 1 :=
    wrap64_eq_self (by omega) (by omega)
  rw [nextW_fst, hw1] at hfalse
  simp only [decide_eq_false_iff_not, not_lt] at hfalse
  have hw2 : wrap64 (it.stepIdx + 1 + n + 1) = it.stepIdx + 1 + n + 1 :=
    wrap64_eq_self (by omega) (by omega)
  rw [nextW_snd, hw1, stepNW_withIdx n it (it.stepIdx + 1) (by omega) (by omega),
    nextW_fst_withIdx, hw2]
  simp only [decide_eq_false_iff_not, not_lt]
  omega

theorem C4_next_false_terminal_within_int64_witness :
    (ElemIter.listElementIterator .number [] (-1)).kind ≠ IterKind.set ∧
    -2 ^ 63 ≤ (ElemIter.listElementIterator .number [] (-1)).stepIdx ∧
    ((ElemIter.listElementIterator .number [] (-1)).NextW).1 = false ∧
    (ElemIter.listElementIterator .number [] (-1)).stepIdx + 2 + ((3 : Nat) : Int)
      < 2 ^ 63 ∧
    ((ElemIter.stepNW 3 ((ElemIter.listElementIterator .number [] (-1)).NextW).2).NextW).1
      = false :=
  ⟨by decide, by decide, by decide, by decide,
    C4_next_false_terminal_within_int64 (.listElementIterator .number [] (-1))
      (by decide) (by decide) (by decide) 3 (by decide)⟩

/-- Claim C5: two independently requested iterators over the same unchanged
value are identical and produce identical runs, and advancing either one
leaves the other's state untouched. -/
theorem C5_independent_iterators (val : Value) (it₁ it₂ : ElemIter)
    (h₁ : elementIterator val = some it₁) (h₂ : elementIterator val = some it₂) :
    (∀ fuel, ElemIter.run fuel it₁ = ElemIter.run fuel it₂) ∧
    (∀ n, (advanceFst^[n] (it₁, it₂)).2 = it₂ ∧ (advanceSnd^[n] (it₁, it₂)).1 = it₁) := by
  have he : it₁ = it₂ := Option.some.inj (h₁.symm.trans h₂)
  subst he
  exact ⟨fun _ => rfl, fun n => ⟨advanceFst_iterate_snd _ n, advanceSnd_iterate_fst _ n⟩⟩

theorem C5_independent_iterators_witness :
    elementIterator ⟨Ty.list .number, Raw.seq [.int 4]⟩
      = some (.listElementIterator .number [.int 4] (-1)) ∧
    ((∀ fuel, ElemIter.run fuel (.listElementIterator .number [.int 4] (-1))
        = ElemIter.run fuel (.listElementIterator .number [.int 4] (-1))) ∧
      (∀ n, (advanceFst^[n] ((ElemIter.listElementIterator .number [.int 4] (-1)),
              (ElemIter.listElementIterator .number [.int 4] (-1)))).2
            = (ElemIter.listElementIterator .number [.int 4] (-1)) ∧
        (advanceSnd^[n] ((ElemIter.listElementIterator .number [.int 4] (-1)),
              (ElemIter.listElementIterator .number [.int 4] (-1)))).1
            = (ElemIter.listElementIterator .number [.int 4] (-1)))) :=
  ⟨rfl, C5_independent_iterators ⟨Ty.list .number, Raw.seq [.int 4]⟩ _ _ rfl rfl⟩

/-- Claim C6: the set iterator is pure delegation: its `Next` is the set
cursor's advance, its `Element` reads the cursor's current element once and
returns it as both key and value; a full run over a set value yields each
canonical element exactly once, in the cursor's order, as identical key and
value pairs. -/
theorem C6_set_delegation (ety : Ty) (elems : List Raw) (c : SetIterator) (r : Raw)
    (hc : c.Value = some r) :
    (ElemIter.Next (.setElementIterator ety c)
      = ((c.Next).1, .setElementIterator ety (c.Next).2)) ∧
    (ElemIter.Element (.setElementIterator ety c) = some (⟨ety, r⟩, ⟨ety, r⟩)) ∧
    (∃ it, elementIterator ⟨Ty.set ety, Raw.set elems⟩ = some it ∧
      ElemIter.run (elems.length + 1) it
        = (elems.map (fun e => (⟨ety, e⟩, ⟨ety, e⟩)),
            .setElementIterator ety ⟨elems, (elems.length : Int)⟩) ∧
      ∀ p ∈ (ElemIter.run (elems.length + 1) it).1, p.1 = p.2) := by
  have hrun : ElemIter.run (elems.length + 1) (.setElementIterator ety ⟨elems, -1⟩)
      = (elems.map (fun e => ((⟨ety, e⟩ : Value), (⟨ety, e⟩ : Value))),
          .setElementIterator ety ⟨elems, (elems.length : Int)⟩) := by
    rw [run_setIt ety elems _ (by omega)]
    rw [show elems.map (fun e => ((⟨ety, e⟩ : Value), (⟨ety, e⟩ : Value)))
        = (List.range elems.length).map (setElemAt ety elems) from
      (range_map_comp_getD elems Raw.nil
        (fun e => ((⟨ety, e⟩ : Value), (⟨ety, e⟩ : Value)))).symm]
  refine ⟨rfl, ?_, _, rfl, hrun, ?_⟩
  · rw [ElemIter.Element, hc]
  · intro p hp
    rw [hrun] at hp
    obtain ⟨e, _, he⟩ := List.mem_map.mp hp
    rw [← he]

theorem C6_set_delegation_witness :
    (SetIterator.mk [Raw.int 1, Raw.int 2] 0).Value = some (Raw.int 1) ∧
    ((ElemIter.Next (.setElementIterator .number ⟨[Raw.int 1, Raw.int 2], 0⟩)
      = (((SetIterator.mk [Raw.int 1, Raw.int 2] 0).Next).1,
          .setElementIterator .number ((SetIterator.mk [Raw.int 1, Raw.int 2] 0).Next).2)) ∧
    (ElemIter.Element (.setElementIterator .number ⟨[Raw.int 1, Raw.int 2], 0⟩)
      = some (⟨.number, Raw.int 1⟩, ⟨.number, Raw.int 1⟩)) ∧
    (∃ it, elementIterator ⟨Ty.set .number, Raw.set [Raw.int 1, Raw.int 2]⟩ = some it ∧
      ElemIter.run ([Raw.int 1, Raw.int 2].length + 1) it
        = ([Raw.int 1, Raw.int 2].map (fun e => (⟨.number, e⟩, ⟨.number, e⟩)),
            .setElementIterator .number ⟨[Raw.int 1, Raw.int 2],
              ([Raw.int 1, Raw.int 2].length : Int)⟩) ∧
      ∀ p ∈ (ElemIter.run ([Raw.int 1, Raw.int 2].length + 1) it).1, p.1 = p.2)) :=
  ⟨by rfl, C6_set_delegation .number [Raw.int 1, Raw.int 2]
    ⟨[Raw.int 1, Raw.int 2], 0⟩ (Raw.int 1) (by rfl)⟩

/-- Claim C7: a value whose declared type is a collection kind but whose
native payload does not have the shape that kind requires makes the factory
fault at construction instead of returning an iterator. -/
theorem C7_shape_mismatch_faults (v : Value)
    (hkind : v.ty.isCollectionKind = true) (hshape : rawShapeMatches v.ty v.v = false) :
    elementIterator v = none := by
  obtain ⟨ty, raw⟩ := v
  cases ty <;> cases raw <;>
    simp_all [elementIterator, Ty.isCollectionKind, Ty.IsListType, Ty.IsMapType,
      Ty.IsSetType, Ty.IsTupleType, rawShapeMatches]

theorem C7_shape_mismatch_faults_witness :
    (Ty.list .number).isCollectionKind = true ∧
    rawShapeMatches (Ty.list .number) (Raw.int 0) = false ∧
    elementIterator ⟨Ty.list .number, Raw.int 0⟩ = none :=
  ⟨rfl, rfl, C7_shape_mismatch_faults ⟨Ty.list .number, Raw.int 0⟩ rfl rfl⟩

/-- Claim C8: for an empty list, map, set, or tuple value, the first `Next`
call on a fresh iterator returns false. -/
theorem C8_empty_first_next_false (ety : Ty) :
    (∃ it, elementIterator ⟨Ty.list ety, Raw.seq []⟩ = some it ∧ (it.Next).1 = false) ∧
    (∃ it, elementIterator ⟨Ty.map ety, Raw.map []⟩ = some it ∧ (it.Next).1 = false) ∧
    (∃ it, elementIterator ⟨Ty.set ety, Raw.set []⟩ = some it ∧ (it.Next).1 = false) ∧
    (∃ it, elementIterator ⟨Ty.tuple [], Raw.seq []⟩ = some it ∧ (it.Next).1 = false) :=
  ⟨⟨_, rfl, by rfl⟩, ⟨_, rfl, by rfl⟩, ⟨_, rfl, by rfl⟩, ⟨_, rfl, by rfl⟩⟩

/-- Claim C9, counterexample to the unbounded form: with the Go `int`
increment modelled exactly (`NextW`), the exhausted list iterator at index
`2^63 - 1` (reachable by that many calls) is rewound by the next call —
the index wraps to `-2^63` (a strict decrease) and `Next` returns true
again — and after `2^63` further calls the cursor is back at position 0
and `Element` yields the first element once more, so exhaustion is not
one-way terminal in the program. -/
theorem C9_wraparound_counterexample :
    (([Raw.nil].length : Int)
        ≤ (ElemIter.listElementIterator .number [Raw.nil] (2 ^ 63 - 1)).stepIdx) ∧
    (((ElemIter.listElementIterator .number [Raw.nil] (2 ^ 63 - 1)).NextW).2).stepIdx
      < (ElemIter.listElementIterator .number [Raw.nil] (2 ^ 63 - 1)).stepIdx ∧
    ((ElemIter.listElementIterator .number [Raw.nil] (2 ^ 63 - 1)).NextW).1 = true ∧
    ((ElemIter.listElementIterator .number [Raw.nil] (2 ^ 63 - 1)).NextW).2
      = ElemIter.listElementIterator .number [Raw.nil] (-2 ^ 63) ∧
    (ElemIter.stepNW (2 ^ 63)
        (ElemIter.listElementIterator .number [Raw.nil] (-2 ^ 63))).Element
      = some (NumberIntVal 0, ⟨Ty.number, Raw.nil⟩) := by
  refine ⟨by decide, by decide, by decide, ?_, ?_⟩
  · show ElemIter.listElementIterator .number [Raw.nil] (wrap64 (2 ^ 63 - 1 + 1))
      = ElemIter.listElementIterator .number [Raw.nil] (-2 ^ 63)
    rw [show wrap64 (2 ^ 63 - 1 + 1) = -2 ^ 63 from by unfold wrap64; omega]
  · have h0 : ElemIter.listElementIterator .number [Raw.nil] (-2 ^ 63)
        = (ElemIter.listElementIterator .number [Raw.nil] 0).withIdx (-2 ^ 63) := rfl
    rw [h0, stepNW_withIdx (2 ^ 63) (.listElementIterator .number [Raw.nil] 0) (-2 ^ 63)
      (by omega) (by norm_num)]
    rw [show (-2 ^ 63 + ((2 ^ 63 : Nat) : Int)) = ((0 : Nat) : Int) from by norm_num]
    exact element_list_at .number [Raw.nil] 0 (by decide)

/-- Claim C9, amended: for a list, map, or tuple iterator the cursor index
strictly increases on a `Next` call while the increment stays inside the
int64 range, and an exhausted iterator stays terminal — `Next` false and
`Element` faulting — for any number of further calls that keeps the index
from overflowing (`idx + 1 + n < 2^63`); stated over the overflow-exact
`NextW`.  At the `2^63 - 1` wrap the index decreases instead. -/
theorem C9_monotone_terminal_within_int64 (it : ElemIter)
    (_hkind : it.kind ≠ IterKind.set) (hlo : -2 ^ 63 ≤ it.stepIdx) :
    (it.stepIdx + 1 < 2 ^ 63 →
      ((it.NextW).2).stepIdx = it.stepIdx + 1 ∧ it.stepIdx < ((it.NextW).2).stepIdx) ∧
    ((it.stepLen : Int) ≤ it.stepIdx →
      ∀ n : Nat, it.stepIdx + 1 + n < 2 ^ 63 →
        ((ElemIter.stepNW n it).NextW).1 = false ∧
        (ElemIter.stepNW n it).Element = none) := by
  constructor
  · intro hhi
    have hw1 : wrap64 (it.stepIdx + 1) = it.stepIdx + 1 :=
      wrap64_eq_self (by omega) hhi
    rw [nextW_snd, hw1, stepIdx_withIdx]
    omega
  · intro hex n hn
    have hsn : ElemIter.stepNW n it = it.withIdx (it.stepIdx + n) := by
      conv_lhs => rw [← withIdx_stepIdx_self it]
      rw [stepNW_withIdx n it it.stepIdx (by omega) (by omega)]
    have hw2 : wrap64 (it.stepIdx + n + 1) = it.stepIdx + n + 1 :=
      wrap64_eq_self (by omega) (by omega)
    refine ⟨?_, ?_⟩
    · rw [hsn, nextW_fst_withIdx, hw2]
      simp only [decide_eq_false_iff_not, not_lt]
      omega
    · rw [hsn]
      apply element_none_of_notInRange
      rw [stepIdx_withIdx, stepLen_withIdx]
      right
      omega

theorem C9_monotone_terminal_within_int64_witness :
    (ElemIter.listElementIterator .number [] 0).kind ≠ IterKind.set ∧
    -2 ^ 63 ≤ (ElemIter.listElementIterator .number [] 0).stepIdx ∧
    ((ElemIter.listElementIterator .number [] 0).stepIdx + 1 < 2 ^ 63 ∧
      (((ElemIter.listElementIterator .number [] 0).NextW).2).stepIdx
        = (ElemIter.listElementIterator .number [] 0).stepIdx + 1 ∧
      (ElemIter.listElementIterator .number [] 0).stepIdx
        < (((ElemIter.listElementIterator .number [] 0).NextW).2).stepIdx) ∧
    (((ElemIter.listElementIterator .number [] 0).stepLen : Int)
        ≤ (ElemIter.listElementIterator .number [] 0).stepIdx ∧
      (ElemIter.listElementIterator .number [] 0).stepIdx + 1 + ((2 : Nat) : Int)
        < 2 ^ 63 ∧
      ((ElemIter.stepNW 2 (.listElementIterator .number [] 0)).NextW).1 = false ∧
      (ElemIter.stepNW 2 (.listElementIterator .number [] 0)).Element = none) :=
  ⟨by decide, by decide,
    ⟨by decide,
      (C9_monotone_terminal_within_int64 (.listElementIterator .number [] 0)
        (by decide) (by decide)).1 (by decide)⟩,
    ⟨by decide, by decide,
      (C9_monotone_terminal_within_int64 (.listElementIterator .number [] 0)
        (by decide) (by decide)).2 (by decide) 2 (by decide)⟩⟩

/-- Claim C10: calling `Element` outside the contract — before any
successful `Next` (index still -1 or below) or at/after exhaustion (index
at or past the length) — is a definite fault for list, map, and tuple
iterators: the out-of-range indexing of the element or key sequence is a
panic, modelled as `none`. -/
theorem C10_element_out_of_contract_faults :
    (∀ (ety : Ty) (vals : List Raw) (idx : Int),
      idx < 0 ∨ (vals.length : Int) ≤ idx →
      (ElemIter.listElementIterator ety vals idx).Element = none) ∧
    (∀ (ety : Ty) (vals : List (String × Raw)) (keys : List String) (idx : Int),
      idx < 0 ∨ (keys.length : Int) ≤ idx →
      (ElemIter.mapElementIterator ety vals keys idx).Element = none) ∧
    (∀ (etys : List Ty) (vals : List Raw) (idx : Int),
      idx < 0 ∨ (vals.length : Int) ≤ idx →
      (ElemIter.tupleElementIterator etys vals idx).Element = none) :=
  ⟨fun _ _ _ h => element_none_of_notInRange _ h,
   fun _ _ _ _ h => element_none_of_notInRange _ h,
   fun _ _ _ h => element_none_of_notInRange _ h⟩

theorem C10_element_out_of_contract_faults_witness :
    ((-1 : Int) < 0 ∨ ((([] : List Raw).length : Int) ≤ -1)) ∧
    (ElemIter.listElementIterator .number [] (-1)).Element = none ∧
    (ElemIter.mapElementIterator .number [] [] 0).Element = none ∧
    (ElemIter.tupleElementIterator [] [] 5).Element = none :=
  ⟨Or.inl (by decide),
   (C10_element_out_of_contract_faults).1 .number [] (-1) (Or.inl (by decide)),
   (C10_element_out_of_contract_faults).2.1 .number [] [] 0 (Or.inr (by decide)),
   (C10_element_out_of_contract_faults).2.2 [] [] 5 (Or.inr (by decide))⟩

end CtyIter
